import Mathlib

/-!
Shallow embedding of the Markdown-to-HTML rendering core of the
`markdown-editor` repository (file `src/unnamed/part_001`).

Text is modelled as `List Char` (a JavaScript string is a sequence of
characters; all inputs of interest here are ASCII, for which the
JavaScript `trim`, `\s`, `\d` and the Lean `Char.isWhitespace`,
`Char.isDigit` predicates agree).  The KaTeX renderer
(`katex.renderToString`) is an external capability; it is modelled as a
function parameter returning `Option (List Char)` where `none` models a
thrown exception (the source wraps the call in `try`/`catch`).

Scanning functions that a JavaScript global regex replace performs are
implemented with an explicit fuel argument (initialised to the input
length, which always suffices because every step consumes at least one
character); this keeps them structurally recursive so that concrete
instances reduce by `rfl`/`decide`.
-/

namespace MarkdownEditor

/-- The external math-rendering capability (`katex.renderToString` with the
option object used by the source): argument string, display-mode flag,
result `some html` or `none` for a thrown exception. -/
abbrev MathRenderer := List Char → Bool → Option (List Char)

/-- The double-quote character (escaped by `escapeHtml`). -/
def quoteChar : Char := Char.ofNat 34

/-- The apostrophe character (escaped by `escapeHtml`). -/
def aposChar : Char := Char.ofNat 39

/-- The backtick character (code-fence marker and inline-code delimiter). -/
def tickChar : Char := Char.ofNat 96

/-- Escaping of one character, from `escapeHtml` in the source: the source
performs five sequential global replaces (`&`, `<`, `>`, `"`, `'`); since
every pattern is a single character and no replacement string contains a
later pattern character, the sequence coincides with this character map. -/
def escapeChar (c : Char) : List Char :=
  if c = '&' then "&amp;".toList
  else if c = '<' then "&lt;".toList
  else if c = '>' then "&gt;".toList
  else if c = quoteChar then "&quot;".toList
  else if c = aposChar then "&#39;".toList
  else [c]

/-- `escapeHtml` from the source. -/
def escapeHtml (value : List Char) : List Char :=
  value.foldr (fun c acc => escapeChar c ++ acc) []

/-- Leading-whitespace removal (half of the JavaScript `trim`). -/
def trimLeftL (l : List Char) : List Char :=
  l.dropWhile Char.isWhitespace

/-- Trailing-whitespace removal (the JavaScript `trimEnd`). -/
def trimRightL (l : List Char) : List Char :=
  (l.reverse.dropWhile Char.isWhitespace).reverse

/-- The JavaScript `trim`. -/
def trimL (l : List Char) : List Char :=
  trimRightL (trimLeftL l)

/-- Decides whether the first argument is a leading segment of the second
(the JavaScript `startsWith`). -/
def leadsWith : List Char → List Char → Bool
  | [], _ => true
  | _ :: _, [] => false
  | p :: ps, x :: xs => p = x && leadsWith ps xs

/-- The JavaScript `endsWith`. -/
def endsWithL (p l : List Char) : Bool :=
  leadsWith p.reverse l.reverse

/-- Decides whether the pattern occurs as a contiguous segment of the
second list (the JavaScript `includes`). -/
def occursIn (pat : List Char) : List Char → Bool
  | [] => leadsWith pat []
  | x :: xs => leadsWith pat (x :: xs) || occursIn pat xs

/-- `renderMath` from the source: trim the expression, return the empty
string on an all-whitespace expression, otherwise call the capability and
degrade a thrown exception to an error-marker span around the escaped
trimmed expression. -/
def renderMath (k : MathRenderer) (expression : List Char) (displayMode : Bool) :
    List Char :=
  let trimmed := trimL expression
  if trimmed = [] then []
  else
    match k trimmed displayMode with
    | some html => html
    | none => "<span class=\"math-error\">".toList ++ escapeHtml trimmed ++ "</span>".toList

/-- Character scan of `replaceInlineMath` from the source: `inMath` is the
inside-dollar flag, `buffer` the capture buffer.  A backslash immediately
followed by a dollar emits a literal dollar (into the result, even while
capturing — mirroring the source); an unescaped dollar toggles the flag,
emitting either the literal text (all-whitespace buffer) or the rendered
inline math on close; a dangling open dollar is emitted literally. -/
def rimAux (k : MathRenderer) : Bool → List Char → List Char → List Char
  | inMath, buffer, [] => if inMath then '$' :: buffer else []
  | inMath, buffer, [c] =>
    if c = '$' then
      if inMath then
        (if trimL buffer = [] then '$' :: buffer ++ ['$'] else renderMath k buffer false) ++
          rimAux k false [] []
      else rimAux k true [] []
    else if inMath then rimAux k inMath (buffer ++ [c]) []
    else c :: rimAux k inMath buffer []
  | inMath, buffer, c :: d :: rest =>
    if c = '\\' ∧ d = '$' then '$' :: rimAux k inMath buffer rest
    else if c = '$' then
      if inMath then
        (if trimL buffer = [] then '$' :: buffer ++ ['$'] else renderMath k buffer false) ++
          rimAux k false [] (d :: rest)
      else rimAux k true [] (d :: rest)
    else if inMath then rimAux k inMath (buffer ++ [c]) (d :: rest)
    else c :: rimAux k inMath buffer (d :: rest)

/-- `replaceInlineMath` from the source. -/
def replaceInlineMath (k : MathRenderer) (text : List Char) : List Char :=
  rimAux k false [] text

/-- Fuelled scanner for the global replace of the image pattern
`\!\[([^\]]*)]\(([^)]+)\)` with `<img alt="$1" src="$2" />`.  At each
position the engine either matches (greedy character-class runs, which are
deterministic here because the run characters can never include the
closing delimiter) or emits one character and moves on. -/
def replaceImgF : Nat → List Char → List Char
  | 0, l => l
  | _ + 1, [] => []
  | fuel + 1, x :: rest =>
    if x = '!' ∧ rest.take 1 = ['['] then
      let r1 := rest.drop 1
      let alt := r1.takeWhile (· ≠ ']')
      let a1 := r1.dropWhile (· ≠ ']')
      if a1.take 2 = [']', '('] then
        let r2 := a1.drop 2
        let url := r2.takeWhile (· ≠ ')')
        let a2 := r2.dropWhile (· ≠ ')')
        if url ≠ [] ∧ a2.take 1 = [')'] then
          "<img alt=\"".toList ++ alt ++ "\" src=\"".toList ++ url ++ "\" />".toList ++
            replaceImgF fuel (a2.drop 1)
        else x :: replaceImgF fuel rest
      else x :: replaceImgF fuel rest
    else x :: replaceImgF fuel rest

/-- Fuelled scanner for the global replace of the link pattern
`\[([^\]]+)\]\(([^)]+)\)` with
`<a href="$2" target="_blank" rel="noreferrer">$1</a>`. -/
def replaceLinkF : Nat → List Char → List Char
  | 0, l => l
  | _ + 1, [] => []
  | fuel + 1, x :: rest =>
    if x = '[' then
      let text := rest.takeWhile (· ≠ ']')
      let a1 := rest.dropWhile (· ≠ ']')
      if text ≠ [] ∧ a1.take 2 = [']', '('] then
        let r2 := a1.drop 2
        let url := r2.takeWhile (· ≠ ')')
        let a2 := r2.dropWhile (· ≠ ')')
        if url ≠ [] ∧ a2.take 1 = [')'] then
          "<a href=\"".toList ++ url ++ "\" target=\"_blank\" rel=\"noreferrer\">".toList ++
            text ++ "</a>".toList ++ replaceLinkF fuel (a2.drop 1)
        else x :: replaceLinkF fuel rest
      else x :: replaceLinkF fuel rest
    else x :: replaceLinkF fuel rest

/-- Fuelled scanner for a global replace of `cc([^c]+)cc` (a doubled
one-character delimiter around a nonempty run free of that character) by
`pre$1post`; used for the `\*\*([^\*]+)\*\*`, `__([^_]+)__` and
`~~([^~]+)~~` patterns of the source. -/
def replaceWrap2F (c : Char) (pre post : List Char) : Nat → List Char → List Char
  | 0, l => l
  | _ + 1, [] => []
  | _ + 1, [x] => [x]
  | fuel + 1, x :: y :: rest =>
    if x = c ∧ y = c then
      let body := rest.takeWhile (· ≠ c)
      let after := rest.dropWhile (· ≠ c)
      if body ≠ [] ∧ after.take 2 = [c, c] then
        pre ++ body ++ post ++ replaceWrap2F c pre post fuel (after.drop 2)
      else x :: replaceWrap2F c pre post fuel (y :: rest)
    else x :: replaceWrap2F c pre post fuel (y :: rest)

/-- Fuelled scanner for a global replace of `c([^c]+)c` (a one-character
delimiter around a nonempty run free of that character) by `pre$1post`;
used for the `_([^_]+)_` and `` `([^`]+)` `` patterns of the source. -/
def replaceWrap1F (c : Char) (pre post : List Char) : Nat → List Char → List Char
  | 0, l => l
  | _ + 1, [] => []
  | fuel + 1, x :: rest =>
    if x = c then
      let body := rest.takeWhile (· ≠ c)
      let after := rest.dropWhile (· ≠ c)
      if body ≠ [] ∧ after.take 1 = [c] then
        pre ++ body ++ post ++ replaceWrap1F c pre post fuel (after.drop 1)
      else x :: replaceWrap1F c pre post fuel rest
    else x :: replaceWrap1F c pre post fuel rest

/-- Fuelled scanner for the global replace of `(?<!\*)\*([^\*]+)\*` with
`<em>$1</em>`: like `replaceWrap1F` for a single star but with the
negative lookbehind, tracked by `prev`, the character of the original
string just before the current position. -/
def replaceEmStarF : Nat → Option Char → List Char → List Char
  | 0, _, l => l
  | _ + 1, _, [] => []
  | fuel + 1, prev, x :: rest =>
    if x = '*' ∧ prev ≠ some '*' then
      let body := rest.takeWhile (· ≠ '*')
      let after := rest.dropWhile (· ≠ '*')
      if body ≠ [] ∧ after.take 1 = ['*'] then
        "<em>".toList ++ body ++ "</em>".toList ++ replaceEmStarF fuel (some '*') (after.drop 1)
      else x :: replaceEmStarF fuel (some x) rest
    else x :: replaceEmStarF fuel (some x) rest

/-- Image stage of the substitution chain (fuel: the input length). -/
def passImg (l : List Char) : List Char := replaceImgF l.length l

/-- Link stage of the substitution chain. -/
def passLink (l : List Char) : List Char := replaceLinkF l.length l

/-- Star-bold stage (`\*\*([^\*]+)\*\*` to `strong`). -/
def passBoldStar (l : List Char) : List Char :=
  replaceWrap2F '*' "<strong>".toList "</strong>".toList l.length l

/-- Underscore-bold stage (`__([^_]+)__` to `strong`). -/
def passBoldUnderscore (l : List Char) : List Char :=
  replaceWrap2F '_' "<strong>".toList "</strong>".toList l.length l

/-- Star-italic stage (`(?<!\*)\*([^\*]+)\*` to `em`). -/
def passEmStar (l : List Char) : List Char := replaceEmStarF l.length none l

/-- Underscore-italic stage (`_([^_]+)_` to `em`). -/
def passEmUnderscore (l : List Char) : List Char :=
  replaceWrap1F '_' "<em>".toList "</em>".toList l.length l

/-- Strikethrough stage (`~~([^~]+)~~` to `del`). -/
def passDel (l : List Char) : List Char :=
  replaceWrap2F '~' "<del>".toList "</del>".toList l.length l

/-- Inline-code stage (single-backtick delimiter to `code`). -/
def passCode (l : List Char) : List Char :=
  replaceWrap1F tickChar "<code>".toList "</code>".toList l.length l

/-- The eight-stage substitution chain of `parseInline` (the part after
escaping and inline math), in source order: image, link, star bold,
underscore bold, star italic (with lookbehind), underscore italic,
strikethrough, inline code. -/
def inlinePasses (l : List Char) : List Char :=
  passCode (passDel (passEmUnderscore (passEmStar
    (passBoldUnderscore (passBoldStar (passLink (passImg l)))))))

/-- `parseInline` from the source: escape, inline math, then the
substitution chain. -/
def parseInline (k : MathRenderer) (value : List Char) : List Char :=
  inlinePasses (replaceInlineMath k (escapeHtml value))

/-- Newline normalization from `convertMarkdown`: the global replace of
`\r\n?` by `\n` (a carriage return together with an immediately following
line feed, or alone, becomes one line feed). -/
def normalizeNewlines : List Char → List Char
  | [] => []
  | [c] => if c = '\r' then ['\n'] else [c]
  | c :: d :: rest =>
    if c = '\r' then
      if d = '\n' then '\n' :: normalizeNewlines rest
      else '\n' :: normalizeNewlines (d :: rest)
    else c :: normalizeNewlines (d :: rest)

/-- The JavaScript `split` on a line-feed separator: always returns at
least one (possibly empty) piece; a trailing separator yields a trailing
empty piece. -/
def splitLines : List Char → List (List Char)
  | [] => [[]]
  | c :: rest =>
    let ls := splitLines rest
    if c = '\n' then [] :: ls
    else
      match ls with
      | [] => [[c]]
      | h :: t => (c :: h) :: t

/-- The replace of `/\$\s*$/` by the empty string (used on text that sits
after the leading `$$` of a line): the regex matches exactly when the
string with trailing whitespace removed ends in a dollar, and then deletes
that final dollar together with the trailing whitespace. -/
def stripTrailingDollar (l : List Char) : List Char :=
  let core := trimRightL l
  if endsWithL "$".toList core then core.dropLast else l

/-- The replace of `/\$\$\s*$/` by the empty string (used on a raw line
that closes a math block). -/
def stripTrailingDollarDollar (l : List Char) : List Char :=
  let core := trimRightL l
  if endsWithL "$$".toList core then core.dropLast.dropLast else l

/-- Test that a list starts with a whitespace character. -/
def headWhitespace : List Char → Bool
  | [] => false
  | c :: _ => c.isWhitespace

/-- Match of the heading pattern `^(#{1,6})\s+(.*)$` on a trimmed line,
returning the level (number of leading hash characters, 1 to 6) and the
text after the whitespace run.  A line whose leading hash run is longer
than six never matches: a shorter take of the `#{1,6}` group would leave a
hash character where the pattern requires whitespace. -/
def headingMatch (t : List Char) : Option (Nat × List Char) :=
  let hashes := t.takeWhile (· = '#')
  let rest := t.dropWhile (· = '#')
  if 1 ≤ hashes.length ∧ hashes.length ≤ 6 ∧ headWhitespace rest then
    some (hashes.length, rest.dropWhile Char.isWhitespace)
  else none

/-- Test of the thematic-break pattern `^(-{3,}|_{3,}|\*{3,})$` on a
trimmed line. -/
def isThematicBreak (t : List Char) : Bool :=
  3 ≤ t.length && (t.all (· = '-') || t.all (· = '_') || t.all (· = '*'))

/-- The replace of `/^>\s?/` by the empty string on a trimmed line that
starts with the quote marker: drop the marker and at most one whitespace
character after it. -/
def quoteContent (t : List Char) : List Char :=
  let r := t.drop 1
  match r with
  | [] => r
  | c :: rest => if c.isWhitespace then rest else r

/-- Match of the ordered-item pattern `^\d+\.\s+` on a trimmed line,
returning the text with the matched marker removed (the replace by the
empty string). -/
def orderedMatch (t : List Char) : Option (List Char) :=
  let ds := t.takeWhile Char.isDigit
  let rest := t.dropWhile Char.isDigit
  match rest with
  | r :: c :: tail =>
    if ds ≠ [] ∧ r = '.' ∧ c.isWhitespace then some ((c :: tail).dropWhile Char.isWhitespace)
    else none
  | _ => none

/-- Match of the unordered-item pattern `^[-*+]\s+` on a trimmed line,
returning the text with the matched marker removed. -/
def bulletMatch (t : List Char) : Option (List Char) :=
  match t with
  | c :: d :: tail =>
    if (c = '-' ∨ c = '*' ∨ c = '+') ∧ d.isWhitespace then
      some ((d :: tail).dropWhile Char.isWhitespace)
    else none
  | _ => none

/-- The mutable scan state of `convertMarkdown`: the output fragment list
and the block flags and buffers. -/
structure ScanState where
  output : List (List Char)
  inBullet : Bool
  inOrdered : Bool
  inBlockquote : Bool
  inCode : Bool
  inMathBlock : Bool
  codeLanguage : List Char
  codeBuffer : List (List Char)
  mathBuffer : List (List Char)
deriving Repr, DecidableEq

/-- The state at the start of a conversion. -/
def initState : ScanState :=
  ⟨[], false, false, false, false, false, [], [], []⟩

/-- `output.push(fragment)`. -/
def pushFrag (s : ScanState) (f : List Char) : ScanState :=
  { s with output := s.output ++ [f] }

/-- First half of `closeLists` from the source: close an open unordered
list. -/
def closeUl (s : ScanState) : ScanState :=
  if s.inBullet then { pushFrag s "</ul>".toList with inBullet := false } else s

/-- Second half of `closeLists` from the source: close an open ordered
list. -/
def closeOl (s : ScanState) : ScanState :=
  if s.inOrdered then { pushFrag s "</ol>".toList with inOrdered := false } else s

/-- `closeLists` from the source: its two sequential conditionals are the
composition of the unordered and the ordered closer (the first never
touches the `inOrdered` flag). -/
def closeLists (s : ScanState) : ScanState :=
  closeOl (closeUl s)

/-- `closeBlockquote` from the source. -/
def closeBlockquote (s : ScanState) : ScanState :=
  if s.inBlockquote then { pushFrag s "</blockquote>".toList with inBlockquote := false } else s

/-- The fragment emitted for a finished code block: language class
attribute when a language was captured, escaped joined buffer inside. -/
def codeBlockFragment (lang : List Char) (buffer : List (List Char)) : List Char :=
  "<pre><code".toList ++
    (if lang ≠ [] then " class=\"language-".toList ++ lang ++ "\"".toList else []) ++
    ">".toList ++ escapeHtml (List.intercalate ['\n'] buffer) ++ "</code></pre>".toList

/-- `flushCodeBlock` from the source. -/
def flushCodeBlock (s : ScanState) : ScanState :=
  if s.inCode then
    { pushFrag s (codeBlockFragment s.codeLanguage s.codeBuffer) with
        inCode := false, codeLanguage := [], codeBuffer := [] }
  else s

/-- `flushMathBlock` from the source: render the joined, trimmed buffer in
display mode when it is nonempty, then leave math-block state. -/
def flushMathBlock (k : MathRenderer) (s : ScanState) : ScanState :=
  if s.inMathBlock then
    let expression := trimL (List.intercalate ['\n'] s.mathBuffer)
    let s1 := if expression ≠ [] then pushFrag s (renderMath k expression true) else s
    { s1 with inMathBlock := false, mathBuffer := [] }
  else s

/-- The heading fragment `<h{level}>{inner}</h{level}>`. -/
def headingFragment (level : Nat) (inner : List Char) : List Char :=
  "<h".toList ++ (Nat.repr level).toList ++ ">".toList ++ inner ++
    "</h".toList ++ (Nat.repr level).toList ++ ">".toList

/-- The body of the `lines.forEach` callback of `convertMarkdown`:
processing of one line against the current scan state, trying the block
constructs in source order (code fence; code content; leading `$$`; math
content; blank; heading; thematic break; blockquote; ordered item;
unordered item; paragraph). -/
def processLine (k : MathRenderer) (s : ScanState) (line : List Char) : ScanState :=
  let trimmed := trimL line
  if leadsWith "```".toList trimmed then
    if s.inCode then flushCodeBlock s
    else
      let s1 := flushMathBlock k (closeBlockquote (closeLists s))
      { s1 with inCode := true, codeLanguage := trimL (trimmed.drop 3) }
  else if s.inCode then
    { s with codeBuffer := s.codeBuffer ++ [line] }
  else if leadsWith "$$".toList trimmed then
    let s1 := flushCodeBlock (closeBlockquote (closeLists s))
    if s1.inMathBlock then
      let withoutStart := trimL (stripTrailingDollar (trimmed.drop 2))
      let s2 := if withoutStart ≠ [] then { s1 with mathBuffer := s1.mathBuffer ++ [withoutStart] }
                else s1
      if trimmed = "$$".toList ∨ endsWithL "$$".toList trimmed then flushMathBlock k s2 else s2
    else if trimmed = "$$".toList then
      { s1 with inMathBlock := true, mathBuffer := [] }
    else if endsWithL "$$".toList trimmed then
      let expression := trimL ((trimmed.drop 2).dropLast.dropLast)
      if expression ≠ [] then pushFrag s1 (renderMath k expression true) else s1
    else
      let initial := trimL (trimmed.drop 2)
      { s1 with inMathBlock := true, mathBuffer := if initial ≠ [] then [initial] else [] }
  else if s.inMathBlock then
    if endsWithL "$$".toList trimmed then
      let withoutEnd := trimRightL (stripTrailingDollarDollar line)
      let s2 := if trimL withoutEnd ≠ [] then
                  { s with mathBuffer := s.mathBuffer ++ [trimRightL withoutEnd] }
                else s
      flushMathBlock k s2
    else { s with mathBuffer := s.mathBuffer ++ [line] }
  else if trimmed = [] then
    flushMathBlock k (flushCodeBlock (closeBlockquote (closeLists s)))
  else
    match headingMatch trimmed with
    | some (level, text) =>
      let s1 := closeBlockquote (closeLists s)
      pushFrag s1 (headingFragment level (parseInline k text))
    | none =>
      if isThematicBreak trimmed then
        let s1 := closeBlockquote (closeLists s)
        pushFrag s1 "<hr />".toList
      else if leadsWith ">".toList trimmed then
        let s1 := closeLists s
        let content := quoteContent trimmed
        let s2 := if s1.inBlockquote then s1
                  else { pushFrag s1 "<blockquote>".toList with inBlockquote := true }
        pushFrag s2 ("<p>".toList ++ parseInline k content ++ "</p>".toList)
      else
        match orderedMatch trimmed with
        | some content =>
          let s1 := if s.inOrdered then s
                    else
                      let t := closeBlockquote (closeLists s)
                      { pushFrag t "<ol>".toList with inOrdered := true }
          pushFrag s1 ("<li>".toList ++ parseInline k content ++ "</li>".toList)
        | none =>
          match bulletMatch trimmed with
          | some content =>
            let s1 := if s.inBullet then s
                      else
                        let t := closeBlockquote (closeLists s)
                        { pushFrag t "<ul>".toList with inBullet := true }
            pushFrag s1 ("<li>".toList ++ parseInline k content ++ "</li>".toList)
          | none =>
            let s1 := closeBlockquote (closeLists s)
            pushFrag s1 ("<p>".toList ++ parseInline k trimmed ++ "</p>".toList)

/-- The line scan of `convertMarkdown`: normalize line endings, split into
lines, fold the per-line processing over them. -/
def scanLines (k : MathRenderer) (raw : List Char) : ScanState :=
  (splitLines (normalizeNewlines raw)).foldl (processLine k) initState

/-- The state after the end-of-input sequence of `convertMarkdown`: flush
any open code block, then any open math block, then close any open list,
then any open blockquote. -/
def scanDocument (k : MathRenderer) (raw : List Char) : ScanState :=
  closeBlockquote (closeLists (flushMathBlock k (flushCodeBlock (scanLines k raw))))

/-- `convertMarkdown` from the source: the full render, joining the output
fragments with line feeds. -/
def convertMarkdown (k : MathRenderer) (raw : List Char) : List Char :=
  List.intercalate ['\n'] (scanDocument k raw).output

/-- A math capability that always throws (models a renderer failing on
every expression). -/
def kNone : MathRenderer := fun _ _ => none

/-- A probe capability that succeeds and records the expression it was
handed together with the display-mode flag. -/
def kProbe : MathRenderer :=
  fun e m => some (e ++ (if m then "|D" else "|I").toList)

/-- A math capability is tag-safe when none of its successful outputs is
itself one of the four list tags (any real TeX renderer, KaTeX included,
produces span-based markup and satisfies this). -/
def tagSafe (k : MathRenderer) : Prop :=
  ∀ e m r, k e m = some r →
    r ≠ "<ul>".toList ∧ r ≠ "</ul>".toList ∧ r ≠ "<ol>".toList ∧ r ≠ "</ol>".toList

/-- List-tag balance invariant of the scan state: the unordered-list
openers emitted so far exceed the closers by one exactly when an
unordered list is open, and likewise for ordered lists. -/
def tagCountOk (s : ScanState) : Prop :=
  s.output.count "<ul>".toList = s.output.count "</ul>".toList + (if s.inBullet then 1 else 0) ∧
  s.output.count "<ol>".toList = s.output.count "</ol>".toList + (if s.inOrdered then 1 else 0)

/-- Characters inert for every stage of the inline pipeline: letters,
digits, and the url punctuation slash, colon, dot. -/
def safeChar (c : Char) : Bool :=
  c.isAlphanum || c = '/' || c = ':' || c = '.'

/-- The anchor fragment the link substitution produces for text `t` and
url `u`. -/
def anchorOf (t u : List Char) : List Char :=
  "<a href=\"".toList ++ u ++ "\" target=\"_blank\" rel=\"noreferrer\">".toList ++
    t ++ "</a>".toList

/-! State projection lemmas. -/

@[simp] theorem pushFrag_output (s : ScanState) (f : List Char) :
    (pushFrag s f).output = s.output ++ [f] := rfl

@[simp] theorem pushFrag_inBullet (s : ScanState) (f : List Char) :
    (pushFrag s f).inBullet = s.inBullet := rfl

@[simp] theorem pushFrag_inOrdered (s : ScanState) (f : List Char) :
    (pushFrag s f).inOrdered = s.inOrdered := rfl

@[simp] theorem pushFrag_inBlockquote (s : ScanState) (f : List Char) :
    (pushFrag s f).inBlockquote = s.inBlockquote := rfl

@[simp] theorem pushFrag_inCode (s : ScanState) (f : List Char) :
    (pushFrag s f).inCode = s.inCode := rfl

@[simp] theorem pushFrag_inMathBlock (s : ScanState) (f : List Char) :
    (pushFrag s f).inMathBlock = s.inMathBlock := rfl

@[simp] theorem pushFrag_codeLanguage (s : ScanState) (f : List Char) :
    (pushFrag s f).codeLanguage = s.codeLanguage := rfl

@[simp] theorem pushFrag_codeBuffer (s : ScanState) (f : List Char) :
    (pushFrag s f).codeBuffer = s.codeBuffer := rfl

@[simp] theorem pushFrag_mathBuffer (s : ScanState) (f : List Char) :
    (pushFrag s f).mathBuffer = s.mathBuffer := rfl

@[simp] theorem closeLists_inBullet (s : ScanState) : (closeLists s).inBullet = false := by
  simp only [closeLists, closeOl, closeUl]
  by_cases hb : s.inBullet <;> by_cases ho : s.inOrdered <;> simp [hb, ho, pushFrag]

@[simp] theorem closeLists_inOrdered (s : ScanState) : (closeLists s).inOrdered = false := by
  simp only [closeLists, closeOl, closeUl]
  by_cases hb : s.inBullet <;> by_cases ho : s.inOrdered <;> simp [hb, ho, pushFrag]

@[simp] theorem closeLists_inBlockquote (s : ScanState) :
    (closeLists s).inBlockquote = s.inBlockquote := by
  simp only [closeLists, closeOl, closeUl]
  by_cases hb : s.inBullet <;> by_cases ho : s.inOrdered <;> simp [hb, ho, pushFrag]

@[simp] theorem closeLists_inCode (s : ScanState) : (closeLists s).inCode = s.inCode := by
  simp only [closeLists, closeOl, closeUl]
  by_cases hb : s.inBullet <;> by_cases ho : s.inOrdered <;> simp [hb, ho, pushFrag]

@[simp] theorem closeLists_inMathBlock (s : ScanState) :
    (closeLists s).inMathBlock = s.inMathBlock := by
  simp only [closeLists, closeOl, closeUl]
  by_cases hb : s.inBullet <;> by_cases ho : s.inOrdered <;> simp [hb, ho, pushFrag]

@[simp] theorem closeLists_codeLanguage (s : ScanState) :
    (closeLists s).codeLanguage = s.codeLanguage := by
  simp only [closeLists, closeOl, closeUl]
  by_cases hb : s.inBullet <;> by_cases ho : s.inOrdered <;> simp [hb, ho, pushFrag]

@[simp] theorem closeLists_codeBuffer (s : ScanState) :
    (closeLists s).codeBuffer = s.codeBuffer := by
  simp only [closeLists, closeOl, closeUl]
  by_cases hb : s.inBullet <;> by_cases ho : s.inOrdered <;> simp [hb, ho, pushFrag]

@[simp] theorem closeLists_mathBuffer (s : ScanState) :
    (closeLists s).mathBuffer = s.mathBuffer := by
  simp only [closeLists, closeOl, closeUl]
  by_cases hb : s.inBullet <;> by_cases ho : s.inOrdered <;> simp [hb, ho, pushFrag]

@[simp] theorem closeBlockquote_inBlockquote (s : ScanState) :
    (closeBlockquote s).inBlockquote = false := by
  simp only [closeBlockquote]
  by_cases hq : s.inBlockquote <;> simp [hq, pushFrag]

@[simp] theorem closeBlockquote_inBullet (s : ScanState) :
    (closeBlockquote s).inBullet = s.inBullet := by
  simp only [closeBlockquote]
  by_cases hq : s.inBlockquote <;> simp [hq, pushFrag]

@[simp] theorem closeBlockquote_inOrdered (s : ScanState) :
    (closeBlockquote s).inOrdered = s.inOrdered := by
  simp only [closeBlockquote]
  by_cases hq : s.inBlockquote <;> simp [hq, pushFrag]

@[simp] theorem closeBlockquote_inCode (s : ScanState) :
    (closeBlockquote s).inCode = s.inCode := by
  simp only [closeBlockquote]
  by_cases hq : s.inBlockquote <;> simp [hq, pushFrag]

@[simp] theorem closeBlockquote_inMathBlock (s : ScanState) :
    (closeBlockquote s).inMathBlock = s.inMathBlock := by
  simp only [closeBlockquote]
  by_cases hq : s.inBlockquote <;> simp [hq, pushFrag]

@[simp] theorem closeBlockquote_codeLanguage (s : ScanState) :
    (closeBlockquote s).codeLanguage = s.codeLanguage := by
  simp only [closeBlockquote]
  by_cases hq : s.inBlockquote <;> simp [hq, pushFrag]

@[simp] theorem closeBlockquote_codeBuffer (s : ScanState) :
    (closeBlockquote s).codeBuffer = s.codeBuffer := by
  simp only [closeBlockquote]
  by_cases hq : s.inBlockquote <;> simp [hq, pushFrag]

@[simp] theorem closeBlockquote_mathBuffer (s : ScanState) :
    (closeBlockquote s).mathBuffer = s.mathBuffer := by
  simp only [closeBlockquote]
  by_cases hq : s.inBlockquote <;> simp [hq, pushFrag]

@[simp] theorem flushCodeBlock_inCode (s : ScanState) : (flushCodeBlock s).inCode = false := by
  simp only [flushCodeBlock]
  by_cases hc : s.inCode <;> simp [hc, pushFrag]

@[simp] theorem flushCodeBlock_inBullet (s : ScanState) :
    (flushCodeBlock s).inBullet = s.inBullet := by
  simp only [flushCodeBlock]
  by_cases hc : s.inCode <;> simp [hc, pushFrag]

@[simp] theorem flushCodeBlock_inOrdered (s : ScanState) :
    (flushCodeBlock s).inOrdered = s.inOrdered := by
  simp only [flushCodeBlock]
  by_cases hc : s.inCode <;> simp [hc, pushFrag]

@[simp] theorem flushCodeBlock_inBlockquote (s : ScanState) :
    (flushCodeBlock s).inBlockquote = s.inBlockquote := by
  simp only [flushCodeBlock]
  by_cases hc : s.inCode <;> simp [hc, pushFrag]

@[simp] theorem flushCodeBlock_inMathBlock (s : ScanState) :
    (flushCodeBlock s).inMathBlock = s.inMathBlock := by
  simp only [flushCodeBlock]
  by_cases hc : s.inCode <;> simp [hc, pushFrag]

@[simp] theorem flushCodeBlock_mathBuffer (s : ScanState) :
    (flushCodeBlock s).mathBuffer = s.mathBuffer := by
  simp only [flushCodeBlock]
  by_cases hc : s.inCode <;> simp [hc, pushFrag]

@[simp] theorem flushMathBlock_inMathBlock (k : MathRenderer) (s : ScanState) :
    (flushMathBlock k s).inMathBlock = false := by
  simp only [flushMathBlock]
  by_cases hm : s.inMathBlock <;> simp [hm]

@[simp] theorem flushMathBlock_inBullet (k : MathRenderer) (s : ScanState) :
    (flushMathBlock k s).inBullet = s.inBullet := by
  simp only [flushMathBlock]
  by_cases hm : s.inMathBlock
  · simp only [hm, if_true]
    all_goals first
    | rfl
    | (split <;> simp [pushFrag])
  · simp [hm]

@[simp] theorem flushMathBlock_inOrdered (k : MathRenderer) (s : ScanState) :
    (flushMathBlock k s).inOrdered = s.inOrdered := by
  simp only [flushMathBlock]
  by_cases hm : s.inMathBlock
  · simp only [hm, if_true]
    all_goals first
    | rfl
    | (split <;> simp [pushFrag])
  · simp [hm]

@[simp] theorem flushMathBlock_inBlockquote (k : MathRenderer) (s : ScanState) :
    (flushMathBlock k s).inBlockquote = s.inBlockquote := by
  simp only [flushMathBlock]
  by_cases hm : s.inMathBlock
  · simp only [hm, if_true]
    all_goals first
    | rfl
    | (split <;> simp [pushFrag])
  · simp [hm]

@[simp] theorem flushMathBlock_inCode (k : MathRenderer) (s : ScanState) :
    (flushMathBlock k s).inCode = s.inCode := by
  simp only [flushMathBlock]
  by_cases hm : s.inMathBlock
  · simp only [hm, if_true]
    all_goals first
    | rfl
    | (split <;> simp [pushFrag])
  · simp [hm]

@[simp] theorem flushMathBlock_codeBuffer (k : MathRenderer) (s : ScanState) :
    (flushMathBlock k s).codeBuffer = s.codeBuffer := by
  simp only [flushMathBlock]
  by_cases hm : s.inMathBlock
  · simp only [hm, if_true]
    all_goals first
    | rfl
    | (split <;> simp [pushFrag])
  · simp [hm]

@[simp] theorem flushMathBlock_codeLanguage (k : MathRenderer) (s : ScanState) :
    (flushMathBlock k s).codeLanguage = s.codeLanguage := by
  simp only [flushMathBlock]
  by_cases hm : s.inMathBlock
  · simp only [hm, if_true]
    all_goals first
    | rfl
    | (split <;> simp [pushFrag])
  · simp [hm]

/-! Claim theorems. -/

/-- C9: the empty input document produces the empty output string, for
every math capability. -/
theorem claim9_empty_input (k : MathRenderer) : convertMarkdown k [] = [] := rfl

/-- C4: at end of input the still-open code block is flushed, then the
still-open math block, then open lists are closed, then an open
blockquote, in that order; and an unterminated fence still renders its
accumulated content: the document with an unclosed `js` fence emits the
full `pre`/`code` block for the buffered line. -/
theorem claim4_end_of_input_order :
    (∀ (k : MathRenderer) (raw : List Char),
      scanDocument k raw =
        closeBlockquote (closeLists (flushMathBlock k (flushCodeBlock (scanLines k raw))))) ∧
    (∀ k : MathRenderer,
      convertMarkdown k "```js\nlet x = 1;".toList =
        "<pre><code class=\"language-js\">let x = 1;</code></pre>".toList) :=
  ⟨fun _ _ => rfl, fun _ => rfl⟩

/-- C10: inline span transformation escapes the text before the inline
math scan runs, so a successfully parsed inline dollar span hands the
math capability the HTML-escaped form of the text (the probe receives
`a&lt;b` for source text `a<b`), whereas the content lines of a block
double-dollar construct are handed over raw (the probe receives `a<b`). -/
theorem claim10_escaping_of_math_input :
    (∀ (k : MathRenderer) (value : List Char),
      parseInline k value = inlinePasses (replaceInlineMath k (escapeHtml value))) ∧
    parseInline kProbe "$a<b$".toList = "a&lt;b|I".toList ∧
    convertMarkdown kProbe "$$\na<b\n$$".toList = "a<b|D".toList :=
  ⟨fun _ _ => rfl, rfl, rfl⟩

/-- C1 (amended): the math bridge is a total function (never raises); on
an all-whitespace expression it returns the empty string without
consulting the capability, and when the capability throws it returns the
error-marker span around the HTML-escaped TRIMMED expression (the source
trims the expression before rendering or escaping it). -/
theorem claim1_renderMath_total_fallback (k : MathRenderer) (expression : List Char)
    (displayMode : Bool) :
    (trimL expression = [] → renderMath k expression displayMode = []) ∧
    (trimL expression ≠ [] → k (trimL expression) displayMode = none →
      renderMath k expression displayMode =
        "<span class=\"math-error\">".toList ++ escapeHtml (trimL expression) ++
          "</span>".toList) := by
  constructor
  · intro h
    simp [renderMath, h]
  · intro hne hk
    simp [renderMath, hne, hk]

/-- Witness for C1 at a concrete whitespace-padded expression and the
always-throwing capability. -/
theorem claim1_witness :
    renderMath kNone " a<b ".toList false =
      "<span class=\"math-error\">a&lt;b</span>".toList := by
  have h := (claim1_renderMath_total_fallback kNone " a<b ".toList false).2 (by decide) rfl
  exact h.trans (by decide)

/-- Counterexample for C1 as stated: when the capability fails on the
whitespace-padded expression ` a<b `, the error span does not contain the
HTML-escaped original expression (which keeps its surrounding spaces);
it contains only the escaped trimmed expression. -/
theorem claim1_counterexample :
    renderMath kNone " a<b ".toList false =
      "<span class=\"math-error\">a&lt;b</span>".toList ∧
    occursIn (escapeHtml " a<b ".toList) (renderMath kNone " a<b ".toList false) = false := by
  constructor
  · decide
  · decide

/-- C2: while a fenced code block is open, every line that is not a fence
line is appended verbatim to the code buffer (whatever block construct it
resembles); at flush time the buffer is emitted HTML-escaped inside a
`pre`/`code` fragment and never inline-transformed; in particular the
document fencing `**not bold**` renders it literally inside `code` with
no `strong` tag. -/
theorem claim2_code_content_verbatim :
    (∀ (k : MathRenderer) (s : ScanState) (line : List Char),
      s.inCode = true → leadsWith "```".toList (trimL line) = false →
      processLine k s line = { s with codeBuffer := s.codeBuffer ++ [line] }) ∧
    (∀ s : ScanState, s.inCode = true →
      flushCodeBlock s =
        { pushFrag s (codeBlockFragment s.codeLanguage s.codeBuffer) with
            inCode := false, codeLanguage := [], codeBuffer := [] }) ∧
    (∀ k : MathRenderer,
      convertMarkdown k "```\n**not bold**\n```".toList =
        "<pre><code>**not bold**</code></pre>".toList) ∧
    occursIn "**not bold**".toList "<pre><code>**not bold**</code></pre>".toList = true ∧
    occursIn "<strong>".toList "<pre><code>**not bold**</code></pre>".toList = false := by
  refine ⟨?_, ?_, fun _ => rfl, by decide, by decide⟩
  · intro k s line h1 h2
    simp at h2
    simp [processLine, h1, h2]
  · intro s h1
    simp [flushCodeBlock, h1]

/-- Witness for C2 applying the verbatim-append part to a concrete open
code state and a heading-looking line. -/
theorem claim2_witness :
    processLine kNone { initState with inCode := true } "# heading".toList =
      { initState with inCode := true, codeBuffer := ["# heading".toList] } := by
  have h := claim2_code_content_verbatim.1 kNone { initState with inCode := true }
    "# heading".toList rfl (by decide)
  exact h.trans (by decide)

/-- Inversion of a successful heading match: the level is the length of
the leading hash run, between one and six, and the line is nonempty. -/
theorem headingMatch_some {t : List Char} {n : Nat} {txt : List Char}
    (h : headingMatch t = some (n, txt)) :
    1 ≤ n ∧ n ≤ 6 ∧ n = (t.takeWhile (· = '#')).length ∧ t ≠ [] := by
  simp only [headingMatch] at h
  by_cases hc : 1 ≤ (t.takeWhile (· = '#')).length ∧
      (t.takeWhile (· = '#')).length ≤ 6 ∧ headWhitespace (t.dropWhile (· = '#')) = true
  · rw [if_pos hc] at h
    have h1 : (t.takeWhile (· = '#')).length = n := congrArg Prod.fst (Option.some.inj h)
    subst h1
    refine ⟨hc.1, hc.2.1, rfl, ?_⟩
    intro h0
    subst h0
    have := hc.1
    simp at this
  · rw [if_neg hc] at h
    cases h

/-- C5: a trimmed line of one to six leading hashes, whitespace and text
renders as the corresponding heading element (outside code and math
blocks), the level being the hash count; seven leading hashes do not
match, so such a line falls through to a paragraph keeping the hashes
literally. -/
theorem claim5_heading_levels :
    (∀ (k : MathRenderer) (s : ScanState) (line : List Char) (level : Nat) (text : List Char),
      s.inCode = false → s.inMathBlock = false →
      leadsWith "```".toList (trimL line) = false →
      leadsWith "$$".toList (trimL line) = false →
      headingMatch (trimL line) = some (level, text) →
      1 ≤ level ∧ level ≤ 6 ∧
        processLine k s line =
          pushFrag (closeBlockquote (closeLists s))
            (headingFragment level (parseInline k text))) ∧
    convertMarkdown kNone "# T".toList = "<h1>T</h1>".toList ∧
    convertMarkdown kNone "## T".toList = "<h2>T</h2>".toList ∧
    convertMarkdown kNone "### T".toList = "<h3>T</h3>".toList ∧
    convertMarkdown kNone "#### T".toList = "<h4>T</h4>".toList ∧
    convertMarkdown kNone "##### T".toList = "<h5>T</h5>".toList ∧
    convertMarkdown kNone "###### T".toList = "<h6>T</h6>".toList ∧
    convertMarkdown kNone "####### x".toList = "<p>####### x</p>".toList := by
  refine ⟨?_, by decide, by decide, by decide, by decide, by decide, by decide, by decide⟩
  intro k s line level text h1 h2 h3 h4 hm
  have hb := headingMatch_some hm
  have hne : trimL line ≠ [] := hb.2.2.2
  simp at h3 h4
  refine ⟨hb.1, hb.2.1, ?_⟩
  simp [processLine, h1, h2, h3, h4, hne, hm]

/-- Witness for C5 at a concrete level-two heading line. -/
theorem claim5_witness :
    1 ≤ 2 ∧ 2 ≤ 6 ∧
      processLine kNone initState "## T".toList =
        pushFrag (closeBlockquote (closeLists initState))
          (headingFragment 2 (parseInline kNone "T".toList)) :=
  claim5_heading_levels.1 kNone initState "## T".toList 2 "T".toList rfl rfl
    (by decide) (by decide) (by decide)

/-- C6 (amended): a line starting with `$$` seen while already inside a
math block has the remainder after the leading marker taken as content
with only a SINGLE trailing dollar (plus trailing whitespace) stripped —
so when the closing line carries content directly before its `$$` marker,
one dollar of the marker stays in the content — and the block is flushed
through the display-mode renderer and closed exactly when the trimmed
line equals `$$` or ends with `$$`. -/
theorem claim6_math_marker_line (k : MathRenderer) (s : ScanState) (line : List Char)
    (h1 : s.inCode = false) (h2 : s.inMathBlock = true)
    (h3 : leadsWith "```".toList (trimL line) = false)
    (h4 : leadsWith "$$".toList (trimL line) = true) :
    processLine k s line =
      (let s1 := flushCodeBlock (closeBlockquote (closeLists s))
       let withoutStart := trimL (stripTrailingDollar ((trimL line).drop 2))
       let s2 := if withoutStart ≠ [] then
                   { s1 with mathBuffer := s1.mathBuffer ++ [withoutStart] }
                 else s1
       if trimL line = "$$".toList ∨ endsWithL "$$".toList (trimL line) then
         flushMathBlock k s2
       else s2) ∧
    ((trimL line = "$$".toList ∨ endsWithL "$$".toList (trimL line)) →
      (processLine k s line).inMathBlock = false) := by
  have heq : processLine k s line =
      (let s1 := flushCodeBlock (closeBlockquote (closeLists s))
       let withoutStart := trimL (stripTrailingDollar ((trimL line).drop 2))
       let s2 := if withoutStart ≠ [] then
                   { s1 with mathBuffer := s1.mathBuffer ++ [withoutStart] }
                 else s1
       if trimL line = "$$".toList ∨ endsWithL "$$".toList (trimL line) then
         flushMathBlock k s2
       else s2) := by
    simp at h3 h4
    simp [processLine, h1, h2, h3, h4]
  refine ⟨heq, fun hclose => ?_⟩
  rw [heq]
  simp only []
  rw [if_pos hclose]
  exact flushMathBlock_inMathBlock k _

/-- Witness for C6 at a concrete open-math state and the closing line
`$$b$$`. -/
theorem claim6_witness :
    (processLine kProbe { initState with inMathBlock := true, mathBuffer := [['a']] }
        "$$b$$".toList).inMathBlock = false :=
  (claim6_math_marker_line kProbe
      { initState with inMathBlock := true, mathBuffer := [['a']] }
      "$$b$$".toList rfl rfl (by decide) (by decide)).2 (by decide)

/-- Counterexample for C6 as stated: in the document whose math block is
closed by the line `$$b$$`, only one dollar of the closing marker is
stripped, so the expression handed to the display renderer (read back
from the probe capability) still contains a dollar character. -/
theorem claim6_counterexample :
    convertMarkdown kProbe "$$\na\n$$b$$".toList = "a\nb$|D".toList ∧
    occursIn "$".toList (convertMarkdown kProbe "$$\na\n$$b$$".toList) = true ∧
    convertMarkdown kProbe "$$\na\n$$b$$".toList ≠ "a\nb|D".toList := by
  refine ⟨rfl, by decide, by decide⟩

/-! Counting lemmas for the list-tag balance invariant (C3). -/

theorem count_snoc_ne (L : List (List Char)) (f t : List Char) (h : f ≠ t) :
    (L ++ [f]).count t = L.count t := by
  simp [List.count_append, List.count_cons, h]

theorem count_snoc_eq (L : List (List Char)) (f : List Char) :
    (L ++ [f]).count f = L.count f + 1 := by
  simp [List.count_append, List.count_cons]

theorem ne_of_second {a b : List Char} {x y : Char}
    (ha : a.get? 1 = some x) (hb : b.get? 1 = some y) (hxy : x ≠ y) : a ≠ b := by
  intro h
  subst h
  rw [ha] at hb
  exact hxy (Option.some.inj hb)

theorem frag_ne_tags {f : List Char} {c : Char} (hf : f.get? 1 = some c)
    (hu : c ≠ 'u') (ho : c ≠ 'o') (hs : c ≠ '/') :
    f ≠ "<ul>".toList ∧ f ≠ "</ul>".toList ∧ f ≠ "<ol>".toList ∧ f ≠ "</ol>".toList :=
  ⟨ne_of_second hf rfl hu, ne_of_second hf rfl hs,
   ne_of_second hf rfl ho, ne_of_second hf rfl hs⟩

theorem renderMath_ne_tags {k : MathRenderer} (hk : tagSafe k) (e : List Char) (m : Bool) :
    renderMath k e m ≠ "<ul>".toList ∧ renderMath k e m ≠ "</ul>".toList ∧
    renderMath k e m ≠ "<ol>".toList ∧ renderMath k e m ≠ "</ol>".toList := by
  simp only [renderMath]
  by_cases h0 : trimL e = []
  · simp only [h0, if_true]
    exact ⟨by decide, by decide, by decide, by decide⟩
  · rw [if_neg h0]
    rcases hke : k (trimL e) m with _ | r
    · have hs : ("<span class=\"math-error\">".toList ++ escapeHtml (trimL e) ++
          "</span>".toList).get? 1 = some 's' := rfl
      exact frag_ne_tags hs (by decide) (by decide) (by decide)
    · exact hk _ _ _ hke

theorem tagCountOk_pushFrag_safe {s : ScanState} {f : List Char} (h : tagCountOk s)
    (hf : f ≠ "<ul>".toList ∧ f ≠ "</ul>".toList ∧ f ≠ "<ol>".toList ∧ f ≠ "</ol>".toList) :
    tagCountOk (pushFrag s f) := by
  obtain ⟨h1, h2⟩ := h
  constructor
  · rw [pushFrag_output, count_snoc_ne _ _ _ hf.1, count_snoc_ne _ _ _ hf.2.1]
    exact h1
  · rw [pushFrag_output, count_snoc_ne _ _ _ hf.2.2.1, count_snoc_ne _ _ _ hf.2.2.2]
    exact h2

theorem tagCountOk_closeUl {s : ScanState} (h : tagCountOk s) :
    tagCountOk (closeUl s) := by
  obtain ⟨h1, h2⟩ := h
  by_cases hb : s.inBullet
  · rw [hb] at h1
    simp only [closeUl, hb, if_true]
    constructor
    · show (s.output ++ ["</ul>".toList]).count "<ul>".toList =
        (s.output ++ ["</ul>".toList]).count "</ul>".toList + (if false = true then 1 else 0)
      rw [count_snoc_ne _ _ _ (show ("</ul>".toList : List Char) ≠ "<ul>".toList by decide),
        count_snoc_eq]
      simp at h1 ⊢
      omega
    · show (s.output ++ ["</ul>".toList]).count "<ol>".toList =
        (s.output ++ ["</ul>".toList]).count "</ol>".toList +
          (if s.inOrdered = true then 1 else 0)
      rw [count_snoc_ne _ _ _ (show ("</ul>".toList : List Char) ≠ "<ol>".toList by decide),
        count_snoc_ne _ _ _ (show ("</ul>".toList : List Char) ≠ "</ol>".toList by decide)]
      exact h2
  · simp only [closeUl, hb, if_false]
    exact ⟨h1, h2⟩

theorem tagCountOk_closeOl {s : ScanState} (h : tagCountOk s) :
    tagCountOk (closeOl s) := by
  obtain ⟨h1, h2⟩ := h
  by_cases ho : s.inOrdered
  · rw [ho] at h2
    simp only [closeOl, ho, if_true]
    constructor
    · show (s.output ++ ["</ol>".toList]).count "<ul>".toList =
        (s.output ++ ["</ol>".toList]).count "</ul>".toList +
          (if s.inBullet = true then 1 else 0)
      rw [count_snoc_ne _ _ _ (show ("</ol>".toList : List Char) ≠ "<ul>".toList by decide),
        count_snoc_ne _ _ _ (show ("</ol>".toList : List Char) ≠ "</ul>".toList by decide)]
      exact h1
    · show (s.output ++ ["</ol>".toList]).count "<ol>".toList =
        (s.output ++ ["</ol>".toList]).count "</ol>".toList + (if false = true then 1 else 0)
      rw [count_snoc_ne _ _ _ (show ("</ol>".toList : List Char) ≠ "<ol>".toList by decide),
        count_snoc_eq]
      simp at h2 ⊢
      omega
  · simp only [closeOl, ho, if_false]
    exact ⟨h1, h2⟩

theorem tagCountOk_closeLists {s : ScanState} (h : tagCountOk s) :
    tagCountOk (closeLists s) :=
  tagCountOk_closeOl (tagCountOk_closeUl h)

theorem tagCountOk_closeBlockquote {s : ScanState} (h : tagCountOk s) :
    tagCountOk (closeBlockquote s) := by
  simp only [closeBlockquote]
  by_cases hq : s.inBlockquote
  · simp only [hq, if_true]
    exact tagCountOk_pushFrag_safe h (by refine ⟨?_, ?_, ?_, ?_⟩ <;> decide)
  · simp [hq]
    exact h

theorem tagCountOk_flushCodeBlock {s : ScanState} (h : tagCountOk s) :
    tagCountOk (flushCodeBlock s) := by
  simp only [flushCodeBlock]
  by_cases hc : s.inCode
  · simp only [hc, if_true]
    have hp : (codeBlockFragment s.codeLanguage s.codeBuffer).get? 1 = some 'p' := rfl
    exact tagCountOk_pushFrag_safe h
      (frag_ne_tags hp (by decide) (by decide) (by decide))
  · simp [hc]
    exact h

theorem tagCountOk_flushMathBlock {k : MathRenderer} (hk : tagSafe k) {s : ScanState}
    (h : tagCountOk s) : tagCountOk (flushMathBlock k s) := by
  simp only [flushMathBlock]
  by_cases hm : s.inMathBlock
  · simp only [hm, if_true]
    split
    · exact tagCountOk_pushFrag_safe h (renderMath_ne_tags hk _ _)
    · exact h
  · simp [hm]
    exact h

theorem tagCountOk_openBullet {t : ScanState} (ht : tagCountOk t)
    (hb : t.inBullet = false) :
    tagCountOk { pushFrag t "<ul>".toList with inBullet := true } := by
  obtain ⟨h1, h2⟩ := ht
  rw [hb] at h1
  constructor
  · show (t.output ++ ["<ul>".toList]).count "<ul>".toList =
      (t.output ++ ["<ul>".toList]).count "</ul>".toList + 1
    rw [count_snoc_eq, count_snoc_ne _ _ _ (by decide)]
    simpa using h1
  · show (t.output ++ ["<ul>".toList]).count "<ol>".toList =
      (t.output ++ ["<ul>".toList]).count "</ol>".toList + _
    rw [count_snoc_ne _ _ _ (by decide), count_snoc_ne _ _ _ (by decide)]
    exact h2

theorem tagCountOk_openOrdered {t : ScanState} (ht : tagCountOk t)
    (ho : t.inOrdered = false) :
    tagCountOk { pushFrag t "<ol>".toList with inOrdered := true } := by
  obtain ⟨h1, h2⟩ := ht
  rw [ho] at h2
  constructor
  · show (t.output ++ ["<ol>".toList]).count "<ul>".toList =
      (t.output ++ ["<ol>".toList]).count "</ul>".toList + _
    rw [count_snoc_ne _ _ _ (by decide), count_snoc_ne _ _ _ (by decide)]
    exact h1
  · show (t.output ++ ["<ol>".toList]).count "<ol>".toList =
      (t.output ++ ["<ol>".toList]).count "</ol>".toList + 1
    rw [count_snoc_eq, count_snoc_ne _ _ _ (by decide)]
    simpa using h2

theorem headingFragment_ne_tags (level : Nat) (inner : List Char) :
    headingFragment level inner ≠ "<ul>".toList ∧
    headingFragment level inner ≠ "</ul>".toList ∧
    headingFragment level inner ≠ "<ol>".toList ∧
    headingFragment level inner ≠ "</ol>".toList :=
  frag_ne_tags (show (headingFragment level inner).get? 1 = some 'h' from rfl)
    (by decide) (by decide) (by decide)

theorem pFrag_ne_tags (inner : List Char) :
    ("<p>".toList ++ inner ++ "</p>".toList) ≠ "<ul>".toList ∧
    ("<p>".toList ++ inner ++ "</p>".toList) ≠ "</ul>".toList ∧
    ("<p>".toList ++ inner ++ "</p>".toList) ≠ "<ol>".toList ∧
    ("<p>".toList ++ inner ++ "</p>".toList) ≠ "</ol>".toList :=
  frag_ne_tags (show ("<p>".toList ++ inner ++ "</p>".toList).get? 1 = some 'p' from rfl)
    (by decide) (by decide) (by decide)

theorem liFrag_ne_tags (inner : List Char) :
    ("<li>".toList ++ inner ++ "</li>".toList) ≠ "<ul>".toList ∧
    ("<li>".toList ++ inner ++ "</li>".toList) ≠ "</ul>".toList ∧
    ("<li>".toList ++ inner ++ "</li>".toList) ≠ "<ol>".toList ∧
    ("<li>".toList ++ inner ++ "</li>".toList) ≠ "</ol>".toList :=
  frag_ne_tags (show ("<li>".toList ++ inner ++ "</li>".toList).get? 1 = some 'l' from rfl)
    (by decide) (by decide) (by decide)

theorem hrFrag_ne_tags :
    ("<hr />".toList : List Char) ≠ "<ul>".toList ∧
    ("<hr />".toList : List Char) ≠ "</ul>".toList ∧
    ("<hr />".toList : List Char) ≠ "<ol>".toList ∧
    ("<hr />".toList : List Char) ≠ "</ol>".toList := by
  refine ⟨?_, ?_, ?_, ?_⟩ <;> decide

theorem bqFrag_ne_tags :
    ("<blockquote>".toList : List Char) ≠ "<ul>".toList ∧
    ("<blockquote>".toList : List Char) ≠ "</ul>".toList ∧
    ("<blockquote>".toList : List Char) ≠ "<ol>".toList ∧
    ("<blockquote>".toList : List Char) ≠ "</ol>".toList := by
  refine ⟨?_, ?_, ?_, ?_⟩ <;> decide

/-- Processing one line preserves the list-tag balance invariant, for any
tag-safe math capability. -/
theorem tagCountOk_processLine {k : MathRenderer} (hk : tagSafe k) (s : ScanState)
    (line : List Char) (h : tagCountOk s) : tagCountOk (processLine k s line) := by
  simp only [processLine]
  split
  · -- fence line
    split
    · exact tagCountOk_flushCodeBlock h
    · exact tagCountOk_flushMathBlock hk
        (tagCountOk_closeBlockquote (tagCountOk_closeLists h))
  · split
    · -- code content line
      exact h
    · split
      · -- line starting with the double-dollar marker
        have hs1 : tagCountOk (flushCodeBlock (closeBlockquote (closeLists s))) :=
          tagCountOk_flushCodeBlock (tagCountOk_closeBlockquote (tagCountOk_closeLists h))
        split
        · -- already inside a math block
          split
          · exact tagCountOk_flushMathBlock hk (by split <;> exact hs1)
          · split <;> exact hs1
        · split
          · -- opening bare marker
            exact hs1
          · split
            · -- same-line display math
              split
              · exact tagCountOk_pushFrag_safe hs1 (renderMath_ne_tags hk _ _)
              · exact hs1
            · -- opening marker with seed content
              exact hs1
      · split
        · -- math block content line
          split
          · exact tagCountOk_flushMathBlock hk (by split <;> exact h)
          · exact h
        · split
          · -- blank line
            exact tagCountOk_flushMathBlock hk (tagCountOk_flushCodeBlock
              (tagCountOk_closeBlockquote (tagCountOk_closeLists h)))
          · split
            · -- heading
              exact tagCountOk_pushFrag_safe
                (tagCountOk_closeBlockquote (tagCountOk_closeLists h))
                (headingFragment_ne_tags _ _)
            · split
              · -- thematic break
                exact tagCountOk_pushFrag_safe
                  (tagCountOk_closeBlockquote (tagCountOk_closeLists h)) hrFrag_ne_tags
              · split
                · -- blockquote line
                  exact tagCountOk_pushFrag_safe
                    (by split
                        · exact tagCountOk_closeLists h
                        · exact tagCountOk_pushFrag_safe (tagCountOk_closeLists h)
                            bqFrag_ne_tags)
                    (pFrag_ne_tags _)
                · split
                  · -- ordered item
                    exact tagCountOk_pushFrag_safe
                      (by split
                          · exact h
                          · exact tagCountOk_openOrdered
                              (tagCountOk_closeBlockquote (tagCountOk_closeLists h))
                              (by simp))
                      (liFrag_ne_tags _)
                  · split
                    · -- unordered item
                      exact tagCountOk_pushFrag_safe
                        (by split
                            · exact h
                            · exact tagCountOk_openBullet
                                (tagCountOk_closeBlockquote (tagCountOk_closeLists h))
                                (by simp))
                        (liFrag_ne_tags _)
                    · -- paragraph
                      exact tagCountOk_pushFrag_safe
                        (tagCountOk_closeBlockquote (tagCountOk_closeLists h))
                        (pFrag_ne_tags _)

theorem tagCountOk_foldl {k : MathRenderer} (hk : tagSafe k) (ls : List (List Char)) :
    ∀ s : ScanState, tagCountOk s → tagCountOk (ls.foldl (processLine k) s) := by
  induction ls with
  | nil => exact fun s h => h
  | cons l t ih => exact fun s h => ih _ (tagCountOk_processLine hk s l h)

theorem tagCountOk_initState : tagCountOk initState :=
  ⟨rfl, rfl⟩

theorem closeBlockquote_count (t : ScanState) (tag : List Char)
    (h : "</blockquote>".toList ≠ tag) :
    (closeBlockquote t).output.count tag = t.output.count tag := by
  simp only [closeBlockquote]
  by_cases hq : t.inBlockquote
  · simp only [hq, if_true, pushFrag_output]
    exact count_snoc_ne _ _ _ h
  · simp [hq]

/-- C3: for every input document, the scan emits as many unordered-list
openers as closers and as many ordered-list openers as closers (every
opened list is closed before a new non-list block or at end of input),
provided the math capability never returns one of the four bare list tags
as its whole output; and the concrete list document closes its `ul`
before the paragraph. -/
theorem claim3_list_tags_balanced :
    (∀ (k : MathRenderer) (raw : List Char), tagSafe k →
      (scanDocument k raw).output.count "<ul>".toList =
        (scanDocument k raw).output.count "</ul>".toList ∧
      (scanDocument k raw).output.count "<ol>".toList =
        (scanDocument k raw).output.count "</ol>".toList) ∧
    convertMarkdown kNone "- a\n- b\n\nc".toList =
      "<ul>\n<li>a</li>\n<li>b</li>\n</ul>\n<p>c</p>".toList := by
  refine ⟨?_, by decide⟩
  intro k raw hk
  have h3 : tagCountOk (closeLists (flushMathBlock k (flushCodeBlock (scanLines k raw)))) :=
    tagCountOk_closeLists (tagCountOk_flushMathBlock hk
      (tagCountOk_flushCodeBlock (tagCountOk_foldl hk _ _ tagCountOk_initState)))
  obtain ⟨g1, g2⟩ := h3
  rw [closeLists_inBullet] at g1
  rw [closeLists_inOrdered] at g2
  simp at g1 g2
  constructor
  · show (closeBlockquote _).output.count "<ul>".toList =
      (closeBlockquote _).output.count "</ul>".toList
    rw [closeBlockquote_count _ _ (by decide), closeBlockquote_count _ _ (by decide)]
    simpa using g1
  · show (closeBlockquote _).output.count "<ol>".toList =
      (closeBlockquote _).output.count "</ol>".toList
    rw [closeBlockquote_count _ _ (by decide), closeBlockquote_count _ _ (by decide)]
    simpa using g2

/-- Witness for C3 applying the balance part to the always-failing
capability (trivially tag-safe) on a concrete mixed-list document. -/
theorem claim3_witness :
    (scanDocument kNone "- a\n1. b\n> q".toList).output.count "<ul>".toList =
      (scanDocument kNone "- a\n1. b\n> q".toList).output.count "</ul>".toList ∧
    (scanDocument kNone "- a\n1. b\n> q".toList).output.count "<ol>".toList =
      (scanDocument kNone "- a\n1. b\n> q".toList).output.count "</ol>".toList :=
  claim3_list_tags_balanced.1 kNone "- a\n1. b\n> q".toList (fun _ _ _ h => nomatch h)

/-! Identity lemmas for the pipeline on inert text (C7, C8). -/

theorem ne_of_isAlphanum {c p : Char} (hc : c.isAlphanum = true)
    (hp : p.isAlphanum = false) : c ≠ p := by
  intro he
  rw [he, hp] at hc
  cases hc

theorem leadsWith_cons_ne {p x : Char} (ps xs : List Char) (h : p ≠ x) :
    leadsWith (p :: ps) (x :: xs) = false := by
  simp [leadsWith, h]

theorem normalizeNewlines_id {l : List Char} (h : ∀ c ∈ l, c ≠ '\r') :
    normalizeNewlines l = l := by
  induction l with
  | nil => rfl
  | cons c rest ih =>
    have hc : c ≠ '\r' := h c (List.mem_cons_self c rest)
    have ih2 := ih fun x hx => h x (List.mem_cons_of_mem _ hx)
    rcases rest with _ | ⟨d, rest2⟩
    · simp [normalizeNewlines, hc]
    · simp [normalizeNewlines, hc, ih2]

theorem splitLines_id {l : List Char} (h : ∀ c ∈ l, c ≠ '\n') :
    splitLines l = [l] := by
  induction l with
  | nil => rfl
  | cons c rest ih =>
    have hc : c ≠ '\n' := h c (List.mem_cons_self c rest)
    have ih2 := ih fun x hx => h x (List.mem_cons_of_mem _ hx)
    simp [splitLines, hc, ih2]

theorem dropWhile_ws_id {l : List Char} (h : ∀ c ∈ l, c.isWhitespace = false) :
    l.dropWhile Char.isWhitespace = l := by
  cases l with
  | nil => rfl
  | cons c rest => simp [List.dropWhile_cons, h c (List.mem_cons_self c rest)]

theorem trimL_id {l : List Char} (h : ∀ c ∈ l, c.isWhitespace = false) :
    trimL l = l := by
  have h1 : trimLeftL l = l := dropWhile_ws_id h
  have h2 : l.reverse.dropWhile Char.isWhitespace = l.reverse :=
    dropWhile_ws_id fun c hc => h c (List.mem_reverse.mp hc)
  rw [trimL, trimRightL, h1, h2, List.reverse_reverse]

theorem escapeChar_id {c : Char} (h1 : c ≠ '&') (h2 : c ≠ '<') (h3 : c ≠ '>')
    (h4 : c ≠ quoteChar) (h5 : c ≠ aposChar) : escapeChar c = [c] := by
  simp [escapeChar, h1, h2, h3, h4, h5]

theorem escapeHtml_id {l : List Char} (h : ∀ c ∈ l, escapeChar c = [c]) :
    escapeHtml l = l := by
  induction l with
  | nil => rfl
  | cons c rest ih =>
    show escapeChar c ++ escapeHtml rest = c :: rest
    rw [h c (List.mem_cons_self c rest), ih fun x hx => h x (List.mem_cons_of_mem _ hx)]
    rfl

theorem rimAux_id {k : MathRenderer} {l : List Char}
    (h : ∀ c ∈ l, c ≠ '$' ∧ c ≠ '\\') : rimAux k false [] l = l := by
  induction l with
  | nil => rfl
  | cons c rest ih =>
    have hc := h c (List.mem_cons_self c rest)
    have ih2 := ih fun x hx => h x (List.mem_cons_of_mem _ hx)
    rcases rest with _ | ⟨d, rest2⟩
    · simp [rimAux, hc.1]
    · simp [rimAux, hc.1, hc.2, ih2]

theorem replaceImgF_id : ∀ (fuel : Nat) (l : List Char), (∀ c ∈ l, c ≠ '!') →
    replaceImgF fuel l = l := by
  intro fuel
  induction fuel with
  | zero => intro l _; rfl
  | succ n ih =>
    intro l h
    cases l with
    | nil => rfl
    | cons x rest =>
      have hx : x ≠ '!' := h x (List.mem_cons_self x rest)
      simp [replaceImgF, hx, ih rest fun c hc => h c (List.mem_cons_of_mem _ hc)]

theorem replaceLinkF_id : ∀ (fuel : Nat) (l : List Char), (∀ c ∈ l, c ≠ '[') →
    replaceLinkF fuel l = l := by
  intro fuel
  induction fuel with
  | zero => intro l _; rfl
  | succ n ih =>
    intro l h
    cases l with
    | nil => rfl
    | cons x rest =>
      have hx : x ≠ '[' := h x (List.mem_cons_self x rest)
      simp [replaceLinkF, hx, ih rest fun c hc => h c (List.mem_cons_of_mem _ hc)]

theorem replaceWrap1F_id (c : Char) (pre post : List Char) :
    ∀ (fuel : Nat) (l : List Char), l.count c ≤ 1 →
    replaceWrap1F c pre post fuel l = l := by
  intro fuel
  induction fuel with
  | zero => intro l _; rfl
  | succ n ih =>
    intro l h
    cases l with
    | nil => rfl
    | cons x rest =>
      by_cases hx : x = c
      · subst hx
        have hr : rest.count x = 0 := by
          rw [List.count_cons_self] at h
          omega
        have hnm : x ∉ rest := by
          intro hmem
          have := List.count_pos_iff.mpr hmem
          omega
        have hafter : rest.dropWhile (· ≠ x) = [] := by
          rw [List.dropWhile_eq_nil_iff]
          intro y hy
          simp
          intro he
          exact absurd (he ▸ hy) hnm
        simp only [replaceWrap1F, if_pos rfl, hafter]
        simp [ih rest (by omega)]
      · have hr : rest.count c ≤ 1 := by
          rw [List.count_cons_of_ne (fun he => hx he.symm)] at h
          exact h
        simp [replaceWrap1F, hx, ih rest hr]

theorem replaceWrap2F_id (c : Char) (pre post : List Char) :
    ∀ (fuel : Nat) (l : List Char), l.count c ≤ 1 →
    replaceWrap2F c pre post fuel l = l := by
  intro fuel
  induction fuel with
  | zero => intro l _; rfl
  | succ n ih =>
    intro l h
    rcases l with _ | ⟨x, _ | ⟨y, rest⟩⟩
    · rfl
    · rfl
    · by_cases hxy : x = c ∧ y = c
      · exfalso
        obtain ⟨hx, hy⟩ := hxy
        subst hx
        subst hy
        rw [List.count_cons_self, List.count_cons_self] at h
        omega
      · have hr : (y :: rest).count c ≤ 1 := by
          rcases List.count_cons c x (y :: rest) with h'
          rw [List.count_cons] at h
          omega
        simp [replaceWrap2F, hxy, ih (y :: rest) hr]

theorem replaceEmStarF_id : ∀ (fuel : Nat) (prev : Option Char) (l : List Char),
    (∀ c ∈ l, c ≠ '*') → replaceEmStarF fuel prev l = l := by
  intro fuel
  induction fuel with
  | zero => intro prev l _; rfl
  | succ n ih =>
    intro prev l h
    cases l with
    | nil => rfl
    | cons x rest =>
      have hx : x ≠ '*' := h x (List.mem_cons_self x rest)
      simp [replaceEmStarF, hx, ih _ rest fun c hc => h c (List.mem_cons_of_mem _ hc)]

/-- The inline transformer is the identity on purely alphanumeric text:
no stage of the chain finds anything to replace. -/
theorem parseInline_id {k : MathRenderer} {l : List Char}
    (h : ∀ c ∈ l, c.isAlphanum = true) : parseInline k l = l := by
  have hne : ∀ (p : Char), p.isAlphanum = false → ∀ c ∈ l, c ≠ p :=
    fun p hp c hc => ne_of_isAlphanum (h c hc) hp
  have hesc : escapeHtml l = l := escapeHtml_id fun c hc =>
    escapeChar_id (hne '&' (by decide) c hc) (hne '<' (by decide) c hc)
      (hne '>' (by decide) c hc) (hne quoteChar (by decide) c hc)
      (hne aposChar (by decide) c hc)
  have hrim : replaceInlineMath k l = l := rimAux_id fun c hc =>
    ⟨hne '$' (by decide) c hc, hne '\\' (by decide) c hc⟩
  have hcount : ∀ (p : Char), p.isAlphanum = false → l.count p ≤ 1 := fun p hp => by
    rw [List.count_eq_zero.mpr fun hm => absurd rfl (hne p hp p hm)]
    omega
  show inlinePasses (replaceInlineMath k (escapeHtml l)) = l
  rw [hesc, hrim]
  simp only [inlinePasses, passImg, passLink, passBoldStar, passBoldUnderscore,
    passEmStar, passEmUnderscore, passDel, passCode]
  rw [replaceImgF_id _ _ (hne '!' (by decide))]
  rw [replaceLinkF_id _ _ (hne '[' (by decide))]
  rw [replaceWrap2F_id '*' _ _ _ _ (hcount '*' (by decide))]
  rw [replaceWrap2F_id '_' _ _ _ _ (hcount '_' (by decide))]
  rw [replaceEmStarF_id _ _ _ (hne '*' (by decide))]
  rw [replaceWrap1F_id '_' _ _ _ _ (hcount '_' (by decide))]
  rw [replaceWrap2F_id '~' _ _ _ _ (hcount '~' (by decide))]
  rw [replaceWrap1F_id tickChar _ _ _ _ (hcount tickChar (by decide))]

theorem mem_of_mem_dropWhile {p : Char → Bool} :
    ∀ {l : List Char} {x : Char}, x ∈ l.dropWhile p → x ∈ l := by
  intro l
  induction l with
  | nil => intro x hx; simp at hx
  | cons c rest ih =>
    intro x hx
    rw [List.dropWhile_cons] at hx
    by_cases hc : p c
    · simp only [hc, if_true] at hx
      exact List.mem_cons_of_mem _ (ih hx)
    · simp only [hc, if_false] at hx
      exact hx

theorem headingMatch_none {c : Char} (rest : List Char) (h : c ≠ '#') :
    headingMatch (c :: rest) = none := by
  simp [headingMatch, List.takeWhile_cons, h]

theorem isThematicBreak_false {c : Char} (rest : List Char) (h1 : c ≠ '-') (h2 : c ≠ '_')
    (h3 : c ≠ '*') : isThematicBreak (c :: rest) = false := by
  simp [isThematicBreak, h1, h2, h3]

theorem orderedMatch_none {l : List Char} (h : ∀ x ∈ l, x ≠ '.') :
    orderedMatch l = none := by
  simp only [orderedMatch]
  rcases hd : l.dropWhile Char.isDigit with _ | ⟨r, _ | ⟨c2, tail⟩⟩
  · rfl
  · rfl
  · have hr : r ≠ '.' := h r (mem_of_mem_dropWhile (hd ▸ List.mem_cons_self r _))
    simp [hr]

theorem bulletMatch_none {c : Char} (rest : List Char) (h1 : c ≠ '-') (h2 : c ≠ '*')
    (h3 : c ≠ '+') : bulletMatch (c :: rest) = none := by
  cases rest <;> simp [bulletMatch, h1, h2, h3]

theorem intercalate_single (x : List Char) : List.intercalate ['\n'] [x] = x := by
  simp [List.intercalate]

/-- C8 (amended): a single-line document of plain text (nonempty, purely
alphanumeric) renders as exactly `<p>{line}</p>` — with NO trailing
newline, since the output fragments are joined, not terminated, by line
feeds. -/
theorem claim8_plain_text :
    (∀ (k : MathRenderer) (line : List Char), line ≠ [] →
      (∀ c ∈ line, c.isAlphanum = true) →
      convertMarkdown k line = "<p>".toList ++ line ++ "</p>".toList) ∧
    convertMarkdown kNone "hello".toList = "<p>hello</p>".toList := by
  refine ⟨?_, by decide⟩
  intro k line hne0 hal
  obtain ⟨c, rest, rfl⟩ : ∃ c rest, line = c :: rest := by
    cases line with
    | nil => exact absurd rfl hne0
    | cons c rest => exact ⟨c, rest, rfl⟩
  have hnp : ∀ (p : Char), p.isAlphanum = false → ∀ x ∈ c :: rest, x ≠ p :=
    fun p hp x hx => ne_of_isAlphanum (hal x hx) hp
  have hnws : ∀ x ∈ c :: rest, x.isWhitespace = false := by
    intro x hx
    rcases hw : x.isWhitespace with _ | _
    · rfl
    · exfalso
      simp [Char.isWhitespace] at hw
      rcases hw with ((rfl | rfl) | rfl) | rfl <;> exact absurd (hal _ hx) (by decide)
  have hc := hal c (List.mem_cons_self c rest)
  have ht : trimL (c :: rest) = c :: rest := trimL_id hnws
  have hnorm : normalizeNewlines (c :: rest) = c :: rest :=
    normalizeNewlines_id (hnp '\r' (by decide))
  have hsplit : splitLines (c :: rest) = [c :: rest] :=
    splitLines_id (hnp '\n' (by decide))
  have hpi : parseInline k (c :: rest) = c :: rest := parseInline_id hal
  have h1 : leadsWith "```".toList (c :: rest) = false :=
    leadsWith_cons_ne _ _ (Ne.symm (ne_of_isAlphanum hc (by decide)))
  have h2 : leadsWith "$$".toList (c :: rest) = false :=
    leadsWith_cons_ne _ _ (Ne.symm (ne_of_isAlphanum hc (by decide)))
  have h3 : leadsWith ">".toList (c :: rest) = false :=
    leadsWith_cons_ne _ _ (Ne.symm (ne_of_isAlphanum hc (by decide)))
  have h4 : headingMatch (c :: rest) = none :=
    headingMatch_none _ (ne_of_isAlphanum hc (by decide))
  have h5 : isThematicBreak (c :: rest) = false :=
    isThematicBreak_false _ (ne_of_isAlphanum hc (by decide))
      (ne_of_isAlphanum hc (by decide)) (ne_of_isAlphanum hc (by decide))
  have h6 : orderedMatch (c :: rest) = none := orderedMatch_none (hnp '.' (by decide))
  have h7 : bulletMatch (c :: rest) = none :=
    bulletMatch_none _ (ne_of_isAlphanum hc (by decide))
      (ne_of_isAlphanum hc (by decide)) (ne_of_isAlphanum hc (by decide))
  have hproc : processLine k initState (c :: rest) =
      pushFrag initState ("<p>".toList ++ (c :: rest) ++ "</p>".toList) := by
    simp only [processLine, ht, h1, h2, h3, h4, h5, h6, h7, hpi, initState,
      closeLists, closeUl, closeOl, closeBlockquote, Bool.false_eq_true, if_false,
      List.cons_ne_nil, ite_false]
  simp only [convertMarkdown, scanDocument, scanLines, hnorm, hsplit,
    List.foldl_cons, List.foldl_nil, hproc]
  have hfin : closeBlockquote (closeLists (flushMathBlock k (flushCodeBlock
      (pushFrag initState ("<p>".toList ++ (c :: rest) ++ "</p>".toList))))) =
      pushFrag initState ("<p>".toList ++ (c :: rest) ++ "</p>".toList) := rfl
  rw [hfin]
  show List.intercalate ['\n'] [("<p>".toList ++ (c :: rest) ++ "</p>".toList)] = _
  exact intercalate_single _

/-- Witness for C8 on the concrete plain line `abc`. -/
theorem claim8_witness :
    convertMarkdown kNone "abc".toList = "<p>".toList ++ "abc".toList ++ "</p>".toList :=
  claim8_plain_text.1 kNone "abc".toList (by decide) (by decide)

/-- Counterexample for C8 as stated: the render of a plain line is the
paragraph alone, not the paragraph followed by a newline character. -/
theorem claim8_counterexample :
    convertMarkdown kNone "hello".toList = "<p>hello</p>".toList ∧
    convertMarkdown kNone "hello".toList ≠ "<p>hello</p>".toList ++ ['\n'] := by
  constructor
  · decide
  · decide

theorem takeWhile_split (p : Char → Bool) :
    ∀ (a : List Char) {y : Char} {ys : List Char}, (∀ c ∈ a, p c = true) → p y = false →
    (a ++ y :: ys).takeWhile p = a ∧ (a ++ y :: ys).dropWhile p = y :: ys := by
  intro a
  induction a with
  | nil =>
    intro y ys _ hy
    constructor <;> simp [List.takeWhile_cons, List.dropWhile_cons, hy]
  | cons c a2 ih =>
    intro y ys ha hy
    have hc : p c = true := ha c (List.mem_cons_self c a2)
    have h2 := @ih y ys (fun x hx => ha x (List.mem_cons_of_mem _ hx)) hy
    constructor <;>
      simp [List.takeWhile_cons, List.dropWhile_cons, hc, h2.1, h2.2]

theorem replaceLinkF_nil : ∀ fuel : Nat, replaceLinkF fuel [] = [] := by
  intro fuel
  cases fuel <;> rfl

/-- The link stage replaces a whole well-formed link fragment by its
anchor: the text part is the maximal run free of closing brackets, the
url part the maximal run free of closing parentheses. -/
theorem replaceLinkF_exact {t u : List Char} (ht0 : t ≠ []) (ht : ∀ c ∈ t, c ≠ ']')
    (hu0 : u ≠ []) (hu : ∀ c ∈ u, c ≠ ')') (fuel : Nat) :
    replaceLinkF (fuel + 1) ('[' :: (t ++ (']' :: '(' :: (u ++ [')'])))) = anchorOf t u := by
  have hsplit : (t ++ (']' :: '(' :: (u ++ [')']))).takeWhile (· ≠ ']') = t ∧
      (t ++ (']' :: '(' :: (u ++ [')']))).dropWhile (· ≠ ']') = ']' :: '(' :: (u ++ [')']) :=
    takeWhile_split _ t (fun c hc => by simp [ht c hc]) (by decide)
  have husplit : (u ++ [')']).takeWhile (· ≠ ')') = u ∧
      (u ++ [')']).dropWhile (· ≠ ')') = [')'] :=
    takeWhile_split _ u (fun c hc => by simp [hu c hc]) (by decide)
  simp only [replaceLinkF, hsplit.1, hsplit.2, List.take_succ_cons, List.take_zero,
    List.drop_succ_cons, List.drop_zero, husplit.1, husplit.2]
  simp [ht0, hu0, anchorOf, replaceLinkF_nil]

/-- C7 (amended): for a fragment that is exactly one link whose text and
url consist of inert characters (letters, digits, slash, colon, dot), the
inline transformer produces exactly the anchor tag of the link
substitution, with its `target` and `rel` attributes intact — the later
passes find nothing further to replace because the anchor then contains
no star, tilde or backtick and only the single underscore of `_blank`. -/
theorem claim7_link_substitution :
    (∀ (k : MathRenderer) (t u : List Char), t ≠ [] → u ≠ [] →
      (∀ c ∈ t, safeChar c = true) → (∀ c ∈ u, safeChar c = true) →
      parseInline k ('[' :: (t ++ (']' :: '(' :: (u ++ [')'])))) = anchorOf t u) ∧
    parseInline kNone "[text](url)".toList = anchorOf "text".toList "url".toList := by
  refine ⟨?_, by decide⟩
  intro k t u ht0 hu0 hts hus
  have hneT : ∀ (p : Char), safeChar p = false → ∀ c ∈ t, c ≠ p := by
    intro p hp c hc he
    have h2 := hts c hc
    rw [he, hp] at h2
    cases h2
  have hneU : ∀ (p : Char), safeChar p = false → ∀ c ∈ u, c ≠ p := by
    intro p hp c hc he
    have h2 := hus c hc
    rw [he, hp] at h2
    cases h2
  have hmem : ∀ x ∈ '[' :: (t ++ (']' :: '(' :: (u ++ [')']))),
      x = '[' ∨ x ∈ t ∨ x = ']' ∨ x = '(' ∨ x ∈ u ∨ x = ')' := by
    intro x hx
    simp only [List.mem_cons, List.mem_append] at hx
    tauto
  have hesc : escapeHtml ('[' :: (t ++ (']' :: '(' :: (u ++ [')'])))) =
      '[' :: (t ++ (']' :: '(' :: (u ++ [')']))) := by
    apply escapeHtml_id
    intro x hx
    rcases hmem x hx with rfl | hxt | rfl | rfl | hxu | rfl
    · decide
    · exact escapeChar_id (hneT '&' (by decide) x hxt) (hneT '<' (by decide) x hxt)
        (hneT '>' (by decide) x hxt) (hneT quoteChar (by decide) x hxt)
        (hneT aposChar (by decide) x hxt)
    · decide
    · decide
    · exact escapeChar_id (hneU '&' (by decide) x hxu) (hneU '<' (by decide) x hxu)
        (hneU '>' (by decide) x hxu) (hneU quoteChar (by decide) x hxu)
        (hneU aposChar (by decide) x hxu)
    · decide
  have hrim : replaceInlineMath k ('[' :: (t ++ (']' :: '(' :: (u ++ [')'])))) =
      '[' :: (t ++ (']' :: '(' :: (u ++ [')']))) := by
    apply rimAux_id
    intro x hx
    rcases hmem x hx with rfl | hxt | rfl | rfl | hxu | rfl
    · decide
    · exact ⟨hneT '$' (by decide) x hxt, hneT '\\' (by decide) x hxt⟩
    · decide
    · decide
    · exact ⟨hneU '$' (by decide) x hxu, hneU '\\' (by decide) x hxu⟩
    · decide
  have himg : passImg ('[' :: (t ++ (']' :: '(' :: (u ++ [')'])))) =
      '[' :: (t ++ (']' :: '(' :: (u ++ [')']))) := by
    apply replaceImgF_id
    intro x hx
    rcases hmem x hx with rfl | hxt | rfl | rfl | hxu | rfl
    · decide
    · exact hneT '!' (by decide) x hxt
    · decide
    · decide
    · exact hneU '!' (by decide) x hxu
    · decide
  have hlink : passLink ('[' :: (t ++ (']' :: '(' :: (u ++ [')'])))) = anchorOf t u := by
    show replaceLinkF ('[' :: (t ++ (']' :: '(' :: (u ++ [')'])))).length
      ('[' :: (t ++ (']' :: '(' :: (u ++ [')'])))) = anchorOf t u
    rw [List.length_cons]
    exact replaceLinkF_exact ht0 (hneT ']' (by decide)) hu0 (hneU ')' (by decide)) _
  have hcT : ∀ (p : Char), safeChar p = false → t.count p = 0 := fun p hp =>
    List.count_eq_zero.mpr fun hm => absurd rfl (hneT p hp p hm)
  have hcU : ∀ (p : Char), safeChar p = false → u.count p = 0 := fun p hp =>
    List.count_eq_zero.mpr fun hm => absurd rfl (hneU p hp p hm)
  have h_star : (anchorOf t u).count '*' ≤ 1 := by
    simp only [anchorOf, List.count_append]
    rw [hcT '*' (by decide), hcU '*' (by decide),
      show ("<a href=\"".toList).count '*' = 0 from by decide,
      show ("\" target=\"_blank\" rel=\"noreferrer\">".toList).count '*' = 0 from by decide,
      show ("</a>".toList).count '*' = 0 from by decide]
    omega
  have h_und : (anchorOf t u).count '_' ≤ 1 := by
    simp only [anchorOf, List.count_append]
    rw [hcT '_' (by decide), hcU '_' (by decide),
      show ("<a href=\"".toList).count '_' = 0 from by decide,
      show ("\" target=\"_blank\" rel=\"noreferrer\">".toList).count '_' = 1 from by decide,
      show ("</a>".toList).count '_' = 0 from by decide]
  have h_til : (anchorOf t u).count '~' ≤ 1 := by
    simp only [anchorOf, List.count_append]
    rw [hcT '~' (by decide), hcU '~' (by decide),
      show ("<a href=\"".toList).count '~' = 0 from by decide,
      show ("\" target=\"_blank\" rel=\"noreferrer\">".toList).count '~' = 0 from by decide,
      show ("</a>".toList).count '~' = 0 from by decide]
    omega
  have h_tick : (anchorOf t u).count tickChar ≤ 1 := by
    simp only [anchorOf, List.count_append]
    rw [hcT tickChar (by decide), hcU tickChar (by decide),
      show ("<a href=\"".toList).count tickChar = 0 from by decide,
      show ("\" target=\"_blank\" rel=\"noreferrer\">".toList).count tickChar = 0 from by decide,
      show ("</a>".toList).count tickChar = 0 from by decide]
    omega
  have h_star_mem : ∀ c ∈ anchorOf t u, c ≠ '*' := by
    intro c hc he
    subst he
    have h0 : (anchorOf t u).count '*' = 0 := by
      have := h_star
      rcases Nat.lt_or_ge ((anchorOf t u).count '*') 1 with h' | h'
      · omega
      · exfalso
        have hnz : (anchorOf t u).count '*' ≠ 0 := by omega
        have := List.count_pos_iff.mpr hc
        -- recompute exactly: the star count is zero
        simp only [anchorOf, List.count_append] at this ⊢
        rw [hcT '*' (by decide), hcU '*' (by decide),
          show ("<a href=\"".toList).count '*' = 0 from by decide,
          show ("\" target=\"_blank\" rel=\"noreferrer\">".toList).count '*' = 0 from by decide,
          show ("</a>".toList).count '*' = 0 from by decide] at this
        omega
    exact absurd (List.count_pos_iff.mpr hc) (by omega)
  have hb1 : passBoldStar (anchorOf t u) = anchorOf t u :=
    replaceWrap2F_id '*' _ _ _ _ h_star
  have hb2 : passBoldUnderscore (anchorOf t u) = anchorOf t u :=
    replaceWrap2F_id '_' _ _ _ _ h_und
  have he1 : passEmStar (anchorOf t u) = anchorOf t u :=
    replaceEmStarF_id _ _ _ h_star_mem
  have he2 : passEmUnderscore (anchorOf t u) = anchorOf t u :=
    replaceWrap1F_id '_' _ _ _ _ h_und
  have hd1 : passDel (anchorOf t u) = anchorOf t u :=
    replaceWrap2F_id '~' _ _ _ _ h_til
  have hc1 : passCode (anchorOf t u) = anchorOf t u :=
    replaceWrap1F_id tickChar _ _ _ _ h_tick
  show inlinePasses (replaceInlineMath k (escapeHtml _)) = _
  rw [hesc, hrim]
  simp only [inlinePasses]
  rw [himg, hlink, hb1, hb2, he1, he2, hd1, hc1]

/-- Witness for C7 at a concrete link with inert text and url. -/
theorem claim7_witness :
    parseInline kNone ('[' :: ("ab".toList ++ (']' :: '(' :: ("cd".toList ++ [')'])))) =
      anchorOf "ab".toList "cd".toList :=
  claim7_link_substitution.1 kNone "ab".toList "cd".toList (by decide) (by decide)
    (by decide) (by decide)

/-- Counterexample for C7 as stated: with a lone underscore pair later in
the fragment, the underscore-italic pass matches from the `_blank` inside
the anchor attributes to the next underscore in the text, corrupting the
anchor tag, which therefore does not appear intact in the output. -/
theorem claim7_counterexample :
    parseInline kNone "[a](u) _x_".toList =
      "<a href=\"u\" target=\"<em>blank\" rel=\"noreferrer\">a</a> </em>x_".toList ∧
    occursIn "<a href=\"u\" target=\"_blank\" rel=\"noreferrer\">a</a>".toList
      (parseInline kNone "[a](u) _x_".toList) = false := by
  constructor
  · decide
  · decide

end MarkdownEditor
